import Mathlib

/-!
# YOLOv8 pose post-processing: a shallow embedding of `main.cpp`

The C++ program `CppQt_OpenVINO_YOLOv8_Image_Pose/main.cpp` letterboxes an image into the
network input tensor, decodes the `[56, N]` output buffer into boxes, confidences and
keypoints, suppresses overlapping boxes and draws the survivors.

Conventions of the embedding:

* `float`/`double` values are exact rationals (`ℚ`); `0.3f`, `0.5`, `255.0` are `3/10`, `1/2`, `255`.
* `int` values are unbounded integers (`ℤ`); `static_cast<int>` is truncation toward zero and
  `%` is the C++ truncating remainder (`Int.tmod`).
* `std::vector` values are lists, `push_back` appends at the end, and an index outside a vector
  (undefined behaviour in C++) reads a default value.
* Drawing on the image is recorded as the list of draw commands issued.
-/

namespace Yolov8Pose

/-! ## Constant tables (`main.cpp`, lines 18-28) -/

/-- The value type `cv::Scalar` restricted to the three colour channels used by the palette. -/
structure Scalar where
  v0 : Nat
  v1 : Nat
  v2 : Nat
  deriving DecidableEq, Repr

/-- The table `skeleton`: 1-based joint pairs joined by a limb line. -/
def skeleton : List (List Int) :=
  [[16, 14], [14, 12], [17, 15], [15, 13], [12, 13], [6, 12], [7, 13], [6, 7],
   [6, 8], [7, 9], [8, 10], [9, 11], [2, 3], [1, 2], [1, 3], [2, 4], [3, 5], [4, 6], [5, 7]]

/-- The table `posePalette`. -/
def posePalette : List Scalar :=
  [⟨255, 128, 0⟩, ⟨255, 153, 51⟩, ⟨255, 178, 102⟩, ⟨230, 230, 0⟩, ⟨255, 153, 255⟩,
   ⟨153, 204, 255⟩, ⟨255, 102, 255⟩, ⟨255, 51, 255⟩, ⟨102, 178, 255⟩, ⟨51, 153, 255⟩,
   ⟨255, 153, 153⟩, ⟨255, 102, 102⟩, ⟨255, 51, 51⟩, ⟨153, 255, 153⟩, ⟨102, 255, 102⟩,
   ⟨51, 255, 51⟩, ⟨0, 255, 0⟩, ⟨0, 0, 255⟩, ⟨255, 0, 0⟩, ⟨255, 255, 255⟩]

/-- The table `limbColorIndices`. -/
def limbColorIndices : List Int :=
  [9, 9, 9, 9, 7, 7, 7, 0, 0, 0, 0, 0, 16, 16, 16, 16, 16, 16, 16]

/-- The table `kptColorIndices`. -/
def kptColorIndices : List Int :=
  [16, 16, 16, 16, 16, 0, 0, 0, 0, 0, 0, 9, 9, 9, 9, 9, 9]

/-! ## Numeric helpers -/

/-- The conversion `static_cast<int>(v)` of a floating value: truncation toward zero. -/
def static_cast_int (v : ℚ) : Int := Int.tdiv v.num (v.den : Int)

/-- Reading `vec[i]` for an `int` index `i` into a vector of floats. -/
def vecAt (vec : List ℚ) (i : Int) : ℚ := vec.getD i.toNat 0

/-- Reading `vec[i]` for an `int` index `i` into a vector of colours. -/
def colorAt (vec : List Scalar) (i : Int) : Scalar := vec.getD i.toNat ⟨0, 0, 0⟩

/-! ## The output matrix `det_output` -/

/-- A `cv::Mat` of type `CV_32F` wrapping a row-major float buffer. -/
structure Mat where
  rows : Nat
  cols : Nat
  data : List ℚ

/-- The element read `m.at<float>(r, c)`: element `r * cols + c` of the buffer. -/
def Mat.get (m : Mat) (r c : Nat) : ℚ := m.data.getD (r * m.cols + c) 0

/-- The view `det_output.col(i).rowRange(5, 56)` read at `(r, 0)`. -/
def kptsAt (det_output : Mat) (i r : Nat) : ℚ := det_output.get (5 + r) i

/-- The value type `cv::Rect`. -/
structure Rect where
  x : Int
  y : Int
  width : Int
  height : Int
  deriving DecidableEq, Repr

/-! ## The decode loop (`main`, lines 163-199) -/

/-- The three vectors `boxes`, `confidences`, `objects_keypoints` filled by the decode loop. -/
structure Decoded where
  boxes : List Rect
  confidences : List ℚ
  objects_keypoints : List (List ℚ)

/-- The box built for column `i` (lines 173-181). -/
def decodeBox (det_output : Mat) (factor : ℚ) (i : Nat) : Rect :=
  let cx := det_output.get 0 i
  let cy := det_output.get 1 i
  let ow := det_output.get 2 i
  let oh := det_output.get 3 i
  { x := static_cast_int ((cx - (1 / 2) * ow) * factor)
    y := static_cast_int ((cy - (1 / 2) * oh) * factor)
    width := static_cast_int (ow * factor)
    height := static_cast_int (oh * factor) }

/-- One iteration of the inner loop over joints `j` (lines 190-195): three `push_back`s. -/
def keypointPush (det_output : Mat) (factor : ℚ) (i : Nat) (keypoints : List ℚ) (j : Nat) :
    List ℚ :=
  let x := kptsAt det_output i (j * 3 + 0) * factor
  let y := kptsAt det_output i (j * 3 + 1) * factor
  let s := kptsAt det_output i (j * 3 + 2)
  ((keypoints ++ [x]) ++ [y]) ++ [s]

/-- The vector `keypoints` built for column `i` (lines 187-196). -/
def decodeKeypoints (det_output : Mat) (factor : ℚ) (i : Nat) : List ℚ :=
  (List.range 17).foldl (keypointPush det_output factor i) []

/-- One iteration of the loop over columns `i` (lines 170-198). -/
def decodeStep (det_output : Mat) (factor : ℚ) (st : Decoded) (i : Nat) : Decoded :=
  let score := det_output.get 4 i
  if score > 3 / 10 then
    { boxes := st.boxes ++ [decodeBox det_output factor i]
      confidences := st.confidences ++ [score]
      objects_keypoints := st.objects_keypoints ++ [decodeKeypoints det_output factor i] }
  else st

/-- The decode loop `for (int i = 0; i < det_output.cols; ++i)`, from three empty vectors. -/
def decodeLoop (det_output : Mat) (factor : ℚ) : Decoded :=
  (List.range det_output.cols).foldl (decodeStep det_output factor) ⟨[], [], []⟩

/-- The columns that pass the confidence test, in increasing order. -/
def passingColumns (det_output : Mat) : List Nat :=
  (List.range det_output.cols).filter (fun i => decide (det_output.get 4 i > 3 / 10))

/-! ## The renderer (`main`, lines 201-266) -/

/-- A drawing call issued on the image: `cv::circle` (filled) or `cv::line`. -/
inductive DrawCmd where
  | circle (x y : Int) (radius : Int) (color : Scalar)
  | line (x1 y1 x2 y2 : Int) (color : Scalar)
  deriving DecidableEq, Repr

/-- The effect of one loop iteration on the commands drawn so far: an iteration that reaches
its drawing call appends one command, a skipped iteration leaves the commands unchanged. -/
def pushDrawn (cmds : List DrawCmd) (r : Option DrawCmd) : List DrawCmd :=
  match r with
  | some c => cmds ++ [c]
  | none => cmds

/-- The constant `radius` (line 201). -/
def radius : Int := 5

/-- The vector `limbColorPalette` built at lines 205-207. -/
def limbColorPalette : List Scalar :=
  limbColorIndices.foldl (fun acc index => acc ++ [colorAt posePalette index]) []

/-- The vector `kptColorPalette` built at lines 208-210. -/
def kptColorPalette : List Scalar :=
  kptColorIndices.foldl (fun acc index => acc ++ [colorAt posePalette index]) []

/-- One iteration of the keypoint loop (lines 231-240) for joint `i`: the circle it draws, or
`none` when the iteration draws nothing. The frame is `shape_width` by `shape_height`. -/
def keypointIter (keypoint : List ℚ) (shape_width shape_height : Int) (i : Nat) :
    Option DrawCmd :=
  let idx : Int := (i : Int) * 3
  let x_coord := static_cast_int (vecAt keypoint idx)
  let y_coord := static_cast_int (vecAt keypoint (idx + 1))
  if x_coord.tmod shape_width ≠ 0 ∧ y_coord.tmod shape_height ≠ 0 then
    let conf := vecAt keypoint 2
    if conf < 1 / 2 then none
    else some (DrawCmd.circle x_coord y_coord radius (colorAt kptColorPalette i))
  else none

/-- The keypoint loop `for (int i = 0; i < 17; ++i)` (lines 230-241). -/
def keypointPass (keypoint : List ℚ) (shape_width shape_height : Int) : List DrawCmd :=
  (List.range 17).foldl
    (fun cmds i => pushDrawn cmds (keypointIter keypoint shape_width shape_height i)) []

/-- One iteration of the limb loop (lines 244-265) for skeleton entry `i`: the line it draws,
or `none` when the iteration is skipped. -/
def limbIter (keypoint : List ℚ) (shape_width shape_height : Int) (i : Nat) :
    Option DrawCmd :=
  let sk := skeleton.getD i []
  let idx1_x_pos : Int := (sk.getD 0 0 - 1) * 3
  let idx2_x_pos : Int := (sk.getD 1 0 - 1) * 3
  let x1 := static_cast_int (vecAt keypoint idx1_x_pos)
  let y1 := static_cast_int (vecAt keypoint (idx1_x_pos + 1))
  let x2 := static_cast_int (vecAt keypoint idx2_x_pos)
  let y2 := static_cast_int (vecAt keypoint (idx2_x_pos + 1))
  let conf1 := vecAt keypoint (idx1_x_pos + 2)
  let conf2 := vecAt keypoint (idx2_x_pos + 2)
  if conf1 < 1 / 2 ∨ conf2 < 1 / 2 then none
  else if x1.tmod shape_width = 0 ∨ y1.tmod shape_height = 0 ∨ x1 < 0 ∨ y1 < 0 ∨
      x2.tmod shape_width = 0 ∨ y2.tmod shape_height = 0 ∨ x2 < 0 ∨ y2 < 0 then none
  else some (DrawCmd.line x1 y1 x2 y2 (colorAt limbColorPalette i))

/-- The limb loop `for (size_t i = 0; i < skeleton.size(); ++i)` (lines 243-266). -/
def limbPass (keypoint : List ℚ) (shape_width shape_height : Int) : List DrawCmd :=
  (List.range skeleton.length).foldl
    (fun cmds i => pushDrawn cmds (limbIter keypoint shape_width shape_height i)) []

/-- The visibility entry of joint `j` (0-based) in a keypoint vector. -/
def visibilityOf (keypoint : List ℚ) (j : Nat) : ℚ := vecAt keypoint ((j : Int) * 3 + 2)

/-- A keypoint vector with joint 0 at (10, 10) visible at 0.9 and joint 1 at (20, 20)
visible at 0.4; the remaining joints are at the origin with visibility 0. -/
def keypointsLowSecondJoint : List ℚ :=
  [10, 10, 9 / 10, 20, 20, 4 / 10] ++ List.replicate 45 0

/-- A keypoint vector with joint 0 on the left image border, x = 0.3, y = 10.7, visible
at 0.6. -/
def keypointsOnBorder : List ℚ :=
  [3 / 10, 107 / 10, 6 / 10] ++ List.replicate 48 0

/-- A keypoint vector with joint 1 (1-based) left of the image at x = -5.5 and joint 2 inside,
both visible at 0.9. -/
def keypointsLeftOfFrame : List ℚ :=
  [-11 / 2, 10, 9 / 10, 30, 40, 9 / 10] ++ List.replicate 45 0

/-! ## The preprocessor (lines 31-90) -/

/-- A three-channel `cv::Mat` image: `px h w c` is channel `c` of the pixel in row `h`,
column `w`. -/
structure Image where
  rows : Nat
  cols : Nat
  px : Nat → Nat → Nat → ℚ

/-- The function `convert`: element type conversion (values unchanged), optional division by
255, optional exchange of channels 0 and 2. -/
def convert (input : Image) (normalize exchangeRB : Bool) : Image :=
  let output : Image := input
  let output : Image :=
    if normalize then { output with px := fun h w c => output.px h w c / 255 } else output
  if exchangeRB then { output with px := fun h w c => output.px h w (2 - c) } else output

/-- The constant `FLT_EPSILON`. -/
def FLT_EPSILON : ℚ := 1 / 2 ^ 23

/-- An `ov::Tensor` of floats: its shape and its flat data buffer. -/
structure Tensor where
  shape : List Nat
  data : List ℚ

/-- The tensor buffer during the repack loop, with the list of flat positions written so far,
in order of writing. -/
structure Filled where
  data : List ℚ
  written : List Nat

/-- The assignment of line 85 for one `(c, h, w)`. -/
def repackWrite (width height : Nat) (blob_image : Image) (c h : Nat) (st : Filled) (w : Nat) :
    Filled :=
  { data := st.data.set (c * width * height + h * width + w) (blob_image.px h w c)
    written := st.written ++ [c * width * height + h * width + w] }

/-- The three nested loops of lines 82-88 over `c`, `h`, `w`. -/
def repackLoop (num_channels height width : Nat) (blob_image : Image) (data : List ℚ) : Filled :=
  (List.range num_channels).foldl
    (fun st c =>
      (List.range height).foldl
        (fun st h =>
          (List.range width).foldl (repackWrite width height blob_image c h) st) st)
    ⟨data, []⟩

/-- The value `scale` computed at lines 57-58. -/
def letterboxScale (height width : Nat) (input_image : Image) : ℚ :=
  min ((height : ℚ) / (input_image.rows : ℚ)) ((width : ℚ) / (input_image.cols : ℚ))

/-- The failure named by the specification for the preprocessor. -/
inductive PreprocessError where
  | ShapeError
  deriving DecidableEq, Repr

/-- The image `blob_image` built at lines 63-74: resize then convert when shrinking, convert
then resize otherwise. The library routine `cv::warpAffine`, applied with the matrix that
scales by `scale` and the output size `(width, height)`, is the parameter `warpAffine`. -/
def letterboxImage (warpAffine : Image → ℚ → Nat → Nat → Image) (scale : ℚ)
    (width height : Nat) (input_image : Image) : Image :=
  if scale < 1 - FLT_EPSILON then
    convert (warpAffine input_image scale width height) true true
  else
    warpAffine (convert input_image true true) scale width height

/-- The function `fill_tensor_data_image`. The body of the C++ function has no test of the
shape and no `throw`, so every path ends in the `return` of line 89. -/
def fill_tensor_data_image (warpAffine : Image → ℚ → Nat → Nat → Image)
    (input_tensor : Tensor) (input_image : Image) : Except PreprocessError (Tensor × ℚ) :=
  let tensor_shape := input_tensor.shape
  let num_channels := tensor_shape.getD 1 0
  let height := tensor_shape.getD 2 0
  let width := tensor_shape.getD 3 0
  let scale := letterboxScale height width input_image
  let blob_image := letterboxImage warpAffine scale width height input_image
  let filled := repackLoop num_channels height width blob_image input_tensor.data
  Except.ok ({ input_tensor with data := filled.data }, 1 / scale)

/-- A resampling routine used to run the preprocessor on examples: nearest-neighbour sampling
of the source at the inverse-scaled position. -/
def nearestWarp (src : Image) (scale : ℚ) (width height : Nat) : Image :=
  { rows := height
    cols := width
    px := fun h w c => src.px (static_cast_int ((h : ℚ) / scale)).toNat
      (static_cast_int ((w : ℚ) / scale)).toNat c }

/-- A 2 by 2 grey image. -/
def greyImage : Image := { rows := 2, cols := 2, px := fun _ _ _ => 128 }

/-! ## The suppression step (`main`, lines 212-214) -/

/-- Reading `boxes[i]`. -/
def boxAt (boxes : List Rect) (i : Nat) : Rect := boxes.getD i ⟨0, 0, 0, 0⟩

/-- Reading `confidences[i]`. -/
def confAt (confidences : List ℚ) (i : Nat) : ℚ := confidences.getD i 0

/-- Modelled from the spec: the overlapping area of two boxes, used by the library routine
`cv::dnn::NMSBoxes`, whose body is not part of the source tree. -/
def overlapArea (a b : Rect) : Int :=
  let w := min (a.x + a.width) (b.x + b.width) - max a.x b.x
  let h := min (a.y + a.height) (b.y + b.height) - max a.y b.y
  if 0 < w ∧ 0 < h then w * h else 0

/-- Modelled from the spec: the IoU of two boxes, "ratio of overlapping area to combined area
of two boxes", used by the library routine `cv::dnn::NMSBoxes`, whose body is not part of the
source tree. -/
def iou (a b : Rect) : ℚ :=
  (overlapArea a b : ℚ) /
    (((a.width * a.height + b.width * b.height - overlapArea a b : Int)) : ℚ)

/-- Modelled from the spec: insertion of index `i` into a list of indices ordered by descending
confidence, before the first index whose confidence is not larger; part of the stable sort of
the library routine `cv::dnn::NMSBoxes`, whose body is not part of the source tree. -/
def insertByConfidence (confidences : List ℚ) (i : Nat) : List Nat → List Nat
  | [] => [i]
  | j :: rest =>
    if confAt confidences i ≥ confAt confidences j then i :: j :: rest
    else j :: insertByConfidence confidences i rest

/-- Modelled from the spec: "sort indices by descending confidence", ties keeping insertion
order; part of the library routine `cv::dnn::NMSBoxes`, whose body is not part of the source
tree. -/
def sortByConfidence (confidences : List ℚ) : List Nat → List Nat
  | [] => []
  | i :: rest => insertByConfidence confidences i (sortByConfidence confidences rest)

/-- Modelled from the spec: "repeatedly take the highest-remaining-confidence index, keep it,
and discard every remaining candidate whose box IoU with the kept box exceeds iouThreshold";
part of the library routine `cv::dnn::NMSBoxes`, whose body is not part of the source tree. -/
def greedySuppress (boxes : List Rect) (iouThreshold : ℚ) : List Nat → List Nat
  | [] => []
  | i :: rest =>
    i :: greedySuppress boxes iouThreshold
      (rest.filter (fun j => decide (¬ iou (boxAt boxes i) (boxAt boxes j) > iouThreshold)))
termination_by l => l.length
decreasing_by
  simp_wf
  exact Nat.lt_succ_of_le (List.length_filter_le _ _)

/-- Modelled from the spec: the library routine `cv::dnn::NMSBoxes`, whose body is not part of
the source tree: candidates below `scoreThreshold` are discarded, the rest are sorted by
descending confidence and suppressed greedily. -/
def NMSBoxes (boxes : List Rect) (confidences : List ℚ) (scoreThreshold iouThreshold : ℚ) :
    List Nat :=
  greedySuppress boxes iouThreshold
    (sortByConfidence confidences
      ((List.range boxes.length).filter
        (fun i => decide (¬ confAt confidences i < scoreThreshold))))

/-- The call `cv::dnn::NMSBoxes(boxes, confidences, 0.25f, 0.45f, indexes)` of line 214 on the
vectors filled by the decode loop. -/
def suppressionStep (det_output : Mat) (factor : ℚ) : List Nat :=
  NMSBoxes (decodeLoop det_output factor).boxes (decodeLoop det_output factor).confidences
    (1 / 4) (9 / 20)

/-! ## Sample inputs -/

/-- Entry `n` of the flat buffer of a 56 by 2 output: column 0 holds a detection with centre
(100, 80), size 50 by 60 and score 0.9, its keypoint rows hold the row number; column 1 holds
0.1 everywhere. -/
def sampleEntry (n : Nat) : ℚ :=
  if n % 2 = 1 then 1 / 10
  else
    match n / 2 with
    | 0 => 100
    | 1 => 80
    | 2 => 50
    | 3 => 60
    | 4 => 9 / 10
    | r => (r : ℚ)

/-- A 56 by 2 output matrix. -/
def sampleDet : Mat := { rows := 56, cols := 2, data := (List.range 112).map sampleEntry }

/-- A keypoint vector with joints 1 and 2 (1-based) inside the frame, both visible at 0.9. -/
def keypointsInFrame : List ℚ :=
  [21 / 2, 10, 9 / 10, 30, 40, 9 / 10] ++ List.replicate 45 0

/-- Truncation toward zero in the words of the specification: round down a non-negative
value, round up a negative one. -/
def truncTowardZero (v : ℚ) : Int := if 0 ≤ v then ⌊v⌋ else ⌈v⌉

/-! # Theorems -/

/-! ## Truncation -/

theorem static_cast_int_of_nonneg {v : ℚ} (h : 0 ≤ v) : static_cast_int v = ⌊v⌋ := by
  unfold static_cast_int
  rw [Rat.floor_def]
  exact Int.tdiv_eq_ediv (Rat.num_nonneg.mpr h) (Int.ofNat_nonneg _)

theorem static_cast_int_neg (v : ℚ) : static_cast_int (-v) = -static_cast_int v := by
  unfold static_cast_int
  rw [Rat.num_neg_eq_neg_num, Rat.neg_den, Int.neg_tdiv]

theorem static_cast_int_of_nonpos {v : ℚ} (h : v ≤ 0) : static_cast_int v = ⌈v⌉ := by
  have h1 : static_cast_int (-v) = ⌊-v⌋ := static_cast_int_of_nonneg (by linarith)
  rw [static_cast_int_neg] at h1
  rw [Int.floor_neg] at h1
  exact neg_injective h1

theorem static_cast_int_eq_trunc (v : ℚ) : static_cast_int v = truncTowardZero v := by
  unfold truncTowardZero
  split
  · next h => exact static_cast_int_of_nonneg h
  · next h => exact static_cast_int_of_nonpos (le_of_lt (not_le.mp h))

/-- Evaluation rule: a non-negative value lying in `[z, z + 1)` truncates to `z`. -/
theorem static_cast_int_eq_of_nonneg {v : ℚ} {z : Int} (h0 : 0 ≤ v) (h1 : (z : ℚ) ≤ v)
    (h2 : v < (z : ℚ) + 1) : static_cast_int v = z := by
  rw [static_cast_int_of_nonneg h0]
  exact Int.floor_eq_iff.mpr ⟨h1, h2⟩

/-- Evaluation rule: a non-positive value lying in `(z - 1, z]` truncates to `z`. -/
theorem static_cast_int_eq_of_nonpos {v : ℚ} {z : Int} (h0 : v ≤ 0) (h1 : (z : ℚ) - 1 < v)
    (h2 : v ≤ (z : ℚ)) : static_cast_int v = z := by
  rw [static_cast_int_of_nonpos h0]
  exact Int.ceil_eq_iff.mpr ⟨h1, h2⟩

/-! ## The decode loop -/

theorem decodeStep_foldl (det_output : Mat) (factor : ℚ) (l : List Nat) (st : Decoded) :
    l.foldl (decodeStep det_output factor) st =
      { boxes := st.boxes ++
          (l.filter (fun i => decide (det_output.get 4 i > 3 / 10))).map
            (decodeBox det_output factor)
        confidences := st.confidences ++
          (l.filter (fun i => decide (det_output.get 4 i > 3 / 10))).map
            (fun i => det_output.get 4 i)
        objects_keypoints := st.objects_keypoints ++
          (l.filter (fun i => decide (det_output.get 4 i > 3 / 10))).map
            (decodeKeypoints det_output factor) } := by
  induction l generalizing st with
  | nil => simp
  | cons i l ih =>
    rw [List.foldl_cons, ih]
    by_cases h : det_output.get 4 i > 3 / 10
    · simp [decodeStep, h, List.filter_cons]
    · simp [decodeStep, h, List.filter_cons]

theorem decodeLoop_eq (det_output : Mat) (factor : ℚ) :
    decodeLoop det_output factor =
      { boxes := (passingColumns det_output).map (decodeBox det_output factor)
        confidences := (passingColumns det_output).map (fun i => det_output.get 4 i)
        objects_keypoints :=
          (passingColumns det_output).map (decodeKeypoints det_output factor) } := by
  unfold decodeLoop passingColumns
  rw [decodeStep_foldl]
  simp

theorem mem_passingColumns (det_output : Mat) (i : Nat) :
    i ∈ passingColumns det_output ↔ i < det_output.cols ∧ det_output.get 4 i > 3 / 10 := by
  simp [passingColumns]

theorem passingColumns_sorted (det_output : Mat) :
    (passingColumns det_output).Pairwise (· < ·) :=
  List.Pairwise.sublist (List.filter_sublist _) (List.pairwise_lt_range _)

theorem passingColumns_single (det_output : Mat) (i0 : Nat) (h0 : i0 < det_output.cols)
    (hs : ∀ i, i < det_output.cols → det_output.get 4 i = if i = i0 then 9 / 10 else 1 / 10) :
    passingColumns det_output = [i0] := by
  have hnd : (passingColumns det_output).Nodup :=
    List.Nodup.sublist (List.filter_sublist _) (List.nodup_range _)
  have hmem : ∀ i, i ∈ passingColumns det_output ↔ i ∈ [i0] := by
    intro i
    rw [mem_passingColumns, List.mem_singleton]
    constructor
    · rintro ⟨hi, hgt⟩
      by_contra hne
      rw [hs i hi, if_neg hne] at hgt
      norm_num at hgt
    · rintro rfl
      refine ⟨h0, ?_⟩
      rw [hs i h0, if_pos rfl]
      norm_num
  have hperm : (passingColumns det_output).Perm [i0] :=
    (List.perm_ext_iff_of_nodup hnd (List.nodup_singleton i0)).mpr hmem
  exact List.perm_singleton.mp hperm

theorem keypointPush_foldl (det_output : Mat) (factor : ℚ) (i n : Nat) :
    ((List.range n).foldl (keypointPush det_output factor i) []).length = 3 * n ∧
    ∀ j, j < n →
      ((List.range n).foldl (keypointPush det_output factor i) [])[3 * j]? =
        some (det_output.get (5 + 3 * j) i * factor) ∧
      ((List.range n).foldl (keypointPush det_output factor i) [])[3 * j + 1]? =
        some (det_output.get (6 + 3 * j) i * factor) ∧
      ((List.range n).foldl (keypointPush det_output factor i) [])[3 * j + 2]? =
        some (det_output.get (7 + 3 * j) i) := by
  induction n with
  | zero => simp
  | succ n ih =>
    obtain ⟨hlen, hent⟩ := ih
    rw [List.range_succ, List.foldl_append]
    simp only [List.foldl_cons, List.foldl_nil, keypointPush, kptsAt]
    refine ⟨by simp [hlen]; omega, ?_⟩
    intro j hj
    rcases Nat.lt_succ_iff_lt_or_eq.mp hj with hlt | rfl
    · obtain ⟨h0, h1, h2⟩ := hent j hlt
      refine ⟨?_, ?_, ?_⟩
      · rw [List.append_assoc, List.append_assoc,
          List.getElem?_append_left (by rw [hlen]; omega)]
        exact h0
      · rw [List.append_assoc, List.append_assoc,
          List.getElem?_append_left (by rw [hlen]; omega)]
        exact h1
      · rw [List.append_assoc, List.append_assoc,
          List.getElem?_append_left (by rw [hlen]; omega)]
        exact h2
    · refine ⟨?_, ?_, ?_⟩
      · rw [List.append_assoc, List.append_assoc,
          List.getElem?_append_right (by rw [hlen]), hlen]
        simp [Nat.mul_comm, Nat.add_assoc]
      · rw [List.append_assoc, List.append_assoc,
          List.getElem?_append_right (by rw [hlen]; omega), hlen]
        have : 3 * j + 1 - 3 * j = 1 := by omega
        simp [this]
        left
        congr 1
        omega
      · rw [List.append_assoc, List.append_assoc,
          List.getElem?_append_right (by rw [hlen]; omega), hlen]
        have : 3 * j + 2 - 3 * j = 2 := by omega
        simp [this]
        congr 1
        omega

theorem decodeKeypoints_length (det_output : Mat) (factor : ℚ) (i : Nat) :
    (decodeKeypoints det_output factor i).length = 51 :=
  (keypointPush_foldl det_output factor i 17).1

theorem decodeKeypoints_entries (det_output : Mat) (factor : ℚ) (i j : Nat) (hj : j < 17) :
    (decodeKeypoints det_output factor i)[3 * j]? = some (det_output.get (5 + 3 * j) i * factor) ∧
    (decodeKeypoints det_output factor i)[3 * j + 1]? =
      some (det_output.get (6 + 3 * j) i * factor) ∧
    (decodeKeypoints det_output factor i)[3 * j + 2]? = some (det_output.get (7 + 3 * j) i) :=
  (keypointPush_foldl det_output factor i 17).2 j hj

theorem truncTowardZero_neg_bounds {v : ℚ} (h : v < 0) :
    v ≤ (truncTowardZero v : ℚ) ∧ truncTowardZero v ≤ 0 := by
  unfold truncTowardZero
  rw [if_neg (not_le.mpr h)]
  refine ⟨Int.le_ceil v, ?_⟩
  exact Int.ceil_le.mpr (by simpa using le_of_lt h)

/-- The position of a passing column in the decoded vectors. -/
theorem passingColumns_position (det_output : Mat) (i : Nat) (hi : i < det_output.cols)
    (hs : det_output.get 4 i > 3 / 10) :
    ∃ k : Nat, (passingColumns det_output)[k]? = some i :=
  List.mem_iff_getElem?.mp ((mem_passingColumns det_output i).mpr ⟨hi, hs⟩)

/-- Claim C1: the decode loop fills three parallel vectors, one entry per column whose score
is strictly above 0.3, in increasing column order, without reordering or deduplication; a buffer
with one column scoring 0.9 and all others 0.1 gives exactly one detection. -/
theorem decodeLoop_parallel_lists (det_output : Mat) (factor : ℚ) :
    (decodeLoop det_output factor).boxes =
        (passingColumns det_output).map (decodeBox det_output factor) ∧
    (decodeLoop det_output factor).confidences =
        (passingColumns det_output).map (fun i => det_output.get 4 i) ∧
    (decodeLoop det_output factor).objects_keypoints =
        (passingColumns det_output).map (decodeKeypoints det_output factor) ∧
    (decodeLoop det_output factor).boxes.length =
        (List.range det_output.cols).countP (fun i => decide (det_output.get 4 i > 3 / 10)) ∧
    (decodeLoop det_output factor).confidences.length =
        (decodeLoop det_output factor).boxes.length ∧
    (decodeLoop det_output factor).objects_keypoints.length =
        (decodeLoop det_output factor).boxes.length ∧
    (passingColumns det_output).Pairwise (· < ·) ∧
    (∀ i, i ∈ passingColumns det_output ↔
        i < det_output.cols ∧ det_output.get 4 i > 3 / 10) ∧
    (∀ i, det_output.get 4 i = 3 / 10 → i ∉ passingColumns det_output) ∧
    (∀ i0, i0 < det_output.cols →
        (∀ i, i < det_output.cols → det_output.get 4 i = if i = i0 then 9 / 10 else 1 / 10) →
        (decodeLoop det_output factor).boxes = [decodeBox det_output factor i0] ∧
        (decodeLoop det_output factor).confidences = [9 / 10] ∧
        (decodeLoop det_output factor).objects_keypoints =
          [decodeKeypoints det_output factor i0]) := by
  rw [decodeLoop_eq]
  refine ⟨rfl, rfl, rfl, ?_, ?_, ?_, passingColumns_sorted det_output,
    mem_passingColumns det_output, ?_, ?_⟩
  · simp [passingColumns, List.countP_eq_length_filter]
  · simp
  · simp
  · intro i h hmem
    have := ((mem_passingColumns det_output i).mp hmem).2
    rw [h] at this
    exact lt_irrefl _ this
  · intro i0 h0 hs
    have h1 := passingColumns_single det_output i0 h0 hs
    simp only [h1, List.map_cons, List.map_nil]
    simp [hs i0 h0]

/-- Claim C5: for every column that passes the confidence threshold, the box stored for it is
the top-left corner and size scaled by the factor and truncated toward zero; a negative
top-left coordinate is rounded up toward zero. -/
theorem decodeLoop_box_truncated (det_output : Mat) (factor : ℚ) (i : Nat)
    (hi : i < det_output.cols) (hs : det_output.get 4 i > 3 / 10) :
    ∃ (k : Nat) (box : Rect), (passingColumns det_output)[k]? = some i ∧
      (decodeLoop det_output factor).boxes[k]? = some box ∧
      box.x = truncTowardZero
        ((det_output.get 0 i - (1 / 2) * det_output.get 2 i) * factor) ∧
      box.y = truncTowardZero
        ((det_output.get 1 i - (1 / 2) * det_output.get 3 i) * factor) ∧
      box.width = truncTowardZero (det_output.get 2 i * factor) ∧
      box.height = truncTowardZero (det_output.get 3 i * factor) ∧
      ((det_output.get 0 i - (1 / 2) * det_output.get 2 i) * factor < 0 →
        (det_output.get 0 i - (1 / 2) * det_output.get 2 i) * factor ≤ (box.x : ℚ) ∧
          box.x ≤ 0) ∧
      ((det_output.get 1 i - (1 / 2) * det_output.get 3 i) * factor < 0 →
        (det_output.get 1 i - (1 / 2) * det_output.get 3 i) * factor ≤ (box.y : ℚ) ∧
          box.y ≤ 0) := by
  obtain ⟨k, hk⟩ := passingColumns_position det_output i hi hs
  refine ⟨k, decodeBox det_output factor i, hk, ?_, ?_, ?_, ?_, ?_, ?_, ?_⟩
  · rw [decodeLoop_eq]
    simp [List.getElem?_map, hk]
  · exact static_cast_int_eq_trunc _
  · exact static_cast_int_eq_trunc _
  · exact static_cast_int_eq_trunc _
  · exact static_cast_int_eq_trunc _
  · intro hneg
    have h := truncTowardZero_neg_bounds hneg
    rw [← static_cast_int_eq_trunc] at h
    exact h
  · intro hneg
    have h := truncTowardZero_neg_bounds hneg
    rw [← static_cast_int_eq_trunc] at h
    exact h

/-- Claim C6: for every column that passes the confidence threshold, the keypoint vector
stored for it has 51 entries; entries 3j and 3j+1 are rows 5+3j and 6+3j of the column times
the factor, and entry 3j+2 is row 7+3j unchanged. -/
theorem decodeLoop_keypoints_layout (det_output : Mat) (factor : ℚ) (i : Nat)
    (hi : i < det_output.cols) (hs : det_output.get 4 i > 3 / 10) :
    ∃ (k : Nat) (keypoints : List ℚ), (passingColumns det_output)[k]? = some i ∧
      (decodeLoop det_output factor).objects_keypoints[k]? = some keypoints ∧
      keypoints.length = 51 ∧
      ∀ j, j < 17 →
        keypoints[3 * j]? = some (det_output.get (5 + 3 * j) i * factor) ∧
        keypoints[3 * j + 1]? = some (det_output.get (6 + 3 * j) i * factor) ∧
        keypoints[3 * j + 2]? = some (det_output.get (7 + 3 * j) i) := by
  obtain ⟨k, hk⟩ := passingColumns_position det_output i hi hs
  refine ⟨k, decodeKeypoints det_output factor i, hk, ?_,
    decodeKeypoints_length det_output factor i,
    fun j hj => decodeKeypoints_entries det_output factor i j hj⟩
  rw [decodeLoop_eq]
  simp [List.getElem?_map, hk]

/-! ## Constant tables -/

/-- Claim C10: the topology tables are well-formed: 19 skeleton pairs with joints in 1..17
(so every derived offset is at most 50), 19 limb colour indices, 17 keypoint colour indices,
20 palette colours, and every colour index in 0..19. -/
theorem tables_well_formed :
    skeleton.length = 19 ∧
    (∀ sk ∈ skeleton, sk.length = 2 ∧ ∀ k ∈ sk, 1 ≤ k ∧ k ≤ 17 ∧
      0 ≤ (k - 1) * 3 ∧ (k - 1) * 3 + 2 ≤ 50) ∧
    limbColorIndices.length = 19 ∧
    kptColorIndices.length = 17 ∧
    posePalette.length = 20 ∧
    (∀ index ∈ limbColorIndices, 0 ≤ index ∧ index ≤ 19) ∧
    (∀ index ∈ kptColorIndices, 0 ≤ index ∧ index ≤ 19) ∧
    limbColorPalette.length = 19 ∧
    kptColorPalette.length = 17 := by
  decide

/-! ## The renderer -/

/-- A loop that appends the optional result of each iteration collects exactly the results of
the iterations that produced one, in iteration order. -/
theorem foldl_pushDrawn (f : Nat → Option DrawCmd) (l : List Nat) (acc : List DrawCmd) :
    l.foldl (fun cmds i => pushDrawn cmds (f i)) acc = acc ++ l.filterMap f := by
  induction l generalizing acc with
  | nil => simp
  | cons i l ih =>
    rw [List.foldl_cons, ih]
    cases h : f i <;> simp [List.filterMap_cons, h, pushDrawn]

theorem keypointPass_eq (keypoint : List ℚ) (W H : Int) :
    keypointPass keypoint W H = (List.range 17).filterMap (keypointIter keypoint W H) := by
  unfold keypointPass
  rw [foldl_pushDrawn]
  simp

theorem limbPass_eq (keypoint : List ℚ) (W H : Int) :
    limbPass keypoint W H = (List.range 19).filterMap (limbIter keypoint W H) := by
  unfold limbPass
  rw [foldl_pushDrawn]
  simp [skeleton]

/-- Claim C2, counterexample: with joint 0 visible at 0.9, joint 1 at (20, 20) with visibility
0.4 still gets its circle; and joint 0 with visibility 0.6 at x = 0.3 (truncated to 0, a
multiple of the frame width 640) gets no circle. -/
theorem keypointIter_not_own_visibility :
    (visibilityOf keypointsLowSecondJoint 1 < 1 / 2 ∧
      keypointIter keypointsLowSecondJoint 640 480 1 =
        some (DrawCmd.circle 20 20 5 ⟨0, 255, 0⟩)) ∧
    (1 / 2 ≤ visibilityOf keypointsOnBorder 0 ∧
      keypointIter keypointsOnBorder 640 480 0 = none) := by
  have h20 : static_cast_int 20 = 20 :=
    static_cast_int_eq_of_nonneg (by norm_num) (by norm_num) (by norm_num)
  have h0 : static_cast_int (3 / 10) = 0 :=
    static_cast_int_eq_of_nonneg (by norm_num) (by norm_num) (by norm_num)
  have e1 : visibilityOf keypointsLowSecondJoint 1 = 4 / 10 := rfl
  have e2 : vecAt keypointsLowSecondJoint (((1 : Nat) : Int) * 3) = 20 := rfl
  have e3 : vecAt keypointsLowSecondJoint (((1 : Nat) : Int) * 3 + 1) = 20 := rfl
  have e4 : vecAt keypointsLowSecondJoint 2 = 9 / 10 := rfl
  have e5 : visibilityOf keypointsOnBorder 0 = 6 / 10 := rfl
  have e6 : vecAt keypointsOnBorder (((0 : Nat) : Int) * 3) = 3 / 10 := rfl
  have hc : colorAt kptColorPalette ((1 : Nat) : Int) = ⟨0, 255, 0⟩ := by decide
  refine ⟨⟨?_, ?_⟩, ?_, ?_⟩
  · rw [e1]; norm_num
  · simp only [keypointIter, e2, e3, e4, h20, hc, radius]
    rw [if_pos (by decide), if_neg (by norm_num)]
  · rw [e5]; norm_num
  · simp only [keypointIter, e6, h0]
    rw [if_neg (by decide)]

/-- Claim C2, amended: for every joint j in 0..16 the keypoint pass draws nothing when the
truncated x is a multiple of the frame width or the truncated y a multiple of the frame
height; when the visibility of joint j and the visibility entry read by the pass (joint 0)
are both below 0.5 it draws nothing; when both are at least 0.5 and the guard passes it draws
a radius-5 circle at the truncated coordinates. -/
theorem keypointIter_draws (keypoint : List ℚ) (W H : Int) (j : Nat) (_hj : j < 17)
    (_hW : 0 < W) (_hH : 0 < H) :
    keypointPass keypoint W H = (List.range 17).filterMap (keypointIter keypoint W H) ∧
    (W ∣ static_cast_int (vecAt keypoint ((j : Int) * 3)) ∨
        H ∣ static_cast_int (vecAt keypoint ((j : Int) * 3 + 1)) →
      keypointIter keypoint W H j = none) ∧
    (visibilityOf keypoint j < 1 / 2 → visibilityOf keypoint 0 < 1 / 2 →
      keypointIter keypoint W H j = none) ∧
    (1 / 2 ≤ visibilityOf keypoint j → 1 / 2 ≤ visibilityOf keypoint 0 →
      ¬ W ∣ static_cast_int (vecAt keypoint ((j : Int) * 3)) →
      ¬ H ∣ static_cast_int (vecAt keypoint ((j : Int) * 3 + 1)) →
      keypointIter keypoint W H j =
        some (DrawCmd.circle (static_cast_int (vecAt keypoint ((j : Int) * 3)))
          (static_cast_int (vecAt keypoint ((j : Int) * 3 + 1))) 5
          (colorAt kptColorPalette j))) := by
  have hv0 : visibilityOf keypoint 0 = vecAt keypoint 2 := by simp [visibilityOf]
  refine ⟨keypointPass_eq keypoint W H, ?_, ?_, ?_⟩
  · intro h
    simp only [keypointIter]
    rw [if_neg]
    rintro ⟨hx, hy⟩
    rcases h with h | h
    · exact hx (Int.tmod_eq_zero_of_dvd h)
    · exact hy (Int.tmod_eq_zero_of_dvd h)
  · intro _ h0
    rw [hv0] at h0
    simp only [keypointIter, if_pos h0]
    split <;> rfl
  · intro _ h0 hx hy
    rw [hv0] at h0
    simp only [keypointIter]
    rw [if_pos ⟨fun h => hx (Int.dvd_of_tmod_eq_zero h), fun h => hy (Int.dvd_of_tmod_eq_zero h)⟩,
      if_neg (not_lt.mpr h0)]
    rfl

/-- Claim C3, counterexample: skeleton entry 13 joins joints 1 and 2; both are visible at 0.9
and none of the truncated coordinates -5, 10, 30, 40 is a multiple of 640 or 480, yet no line
is drawn, because the x coordinate -5 is negative. -/
theorem limbIter_negative_coordinate_skipped :
    skeleton[13]? = some [1, 2] ∧
    1 / 2 ≤ visibilityOf keypointsLeftOfFrame 0 ∧
    1 / 2 ≤ visibilityOf keypointsLeftOfFrame 1 ∧
    static_cast_int (vecAt keypointsLeftOfFrame 0) = -5 ∧
    static_cast_int (vecAt keypointsLeftOfFrame 1) = 10 ∧
    static_cast_int (vecAt keypointsLeftOfFrame 3) = 30 ∧
    static_cast_int (vecAt keypointsLeftOfFrame 4) = 40 ∧
    Int.tmod (-5) 640 ≠ 0 ∧ Int.tmod 10 480 ≠ 0 ∧ Int.tmod 30 640 ≠ 0 ∧ Int.tmod 40 480 ≠ 0 ∧
    limbIter keypointsLeftOfFrame 640 480 13 = none := by
  have h5 : static_cast_int (-11 / 2) = -5 :=
    static_cast_int_eq_of_nonpos (by norm_num) (by norm_num) (by norm_num)
  have h10 : static_cast_int 10 = 10 :=
    static_cast_int_eq_of_nonneg (by norm_num) (by norm_num) (by norm_num)
  have h30 : static_cast_int 30 = 30 :=
    static_cast_int_eq_of_nonneg (by norm_num) (by norm_num) (by norm_num)
  have h40 : static_cast_int 40 = 40 :=
    static_cast_int_eq_of_nonneg (by norm_num) (by norm_num) (by norm_num)
  have hsk : skeleton.getD 13 [] = [1, 2] := by decide
  have v0 : visibilityOf keypointsLeftOfFrame 0 = 9 / 10 := rfl
  have v1 : visibilityOf keypointsLeftOfFrame 1 = 9 / 10 := rfl
  have e0 : vecAt keypointsLeftOfFrame 0 = -11 / 2 := rfl
  have e1 : vecAt keypointsLeftOfFrame 1 = 10 := rfl
  have e3 : vecAt keypointsLeftOfFrame 3 = 30 := rfl
  have e4 : vecAt keypointsLeftOfFrame 4 = 40 := rfl
  have a0 : vecAt keypointsLeftOfFrame ((([1, 2] : List Int).getD 0 0 - 1) * 3) = -11 / 2 := rfl
  have a1 : vecAt keypointsLeftOfFrame ((([1, 2] : List Int).getD 0 0 - 1) * 3 + 1) = 10 := rfl
  have a2 : vecAt keypointsLeftOfFrame ((([1, 2] : List Int).getD 0 0 - 1) * 3 + 2) = 9 / 10 := rfl
  have b0 : vecAt keypointsLeftOfFrame ((([1, 2] : List Int).getD 1 0 - 1) * 3) = 30 := rfl
  have b1 : vecAt keypointsLeftOfFrame ((([1, 2] : List Int).getD 1 0 - 1) * 3 + 1) = 40 := rfl
  have b2 : vecAt keypointsLeftOfFrame ((([1, 2] : List Int).getD 1 0 - 1) * 3 + 2) = 9 / 10 := rfl
  refine ⟨by decide, ?_, ?_, ?_, ?_, ?_, ?_, by decide, by decide, by decide, by decide, ?_⟩
  · rw [v0]; norm_num
  · rw [v1]; norm_num
  · rw [e0, h5]
  · rw [e1, h10]
  · rw [e3, h30]
  · rw [e4, h40]
  · simp only [limbIter, hsk, a0, a1, a2, b0, b1, b2, h5, h10, h30, h40]
    rw [if_neg (by norm_num), if_pos (by decide)]

/-- Claim C3, amended: for skeleton entry i joining joints a and b, the limb line is drawn if
and only if both endpoint visibilities are at least 0.5, none of the four truncated
coordinates is a multiple of its frame dimension, and none of them is negative; otherwise the
iteration draws nothing. -/
theorem limbIter_draws_iff (keypoint : List ℚ) (W H : Int) (i : Nat) (a b : Int)
    (_hW : 0 < W) (_hH : 0 < H) (hsk : skeleton[i]? = some [a, b]) :
    limbPass keypoint W H = (List.range 19).filterMap (limbIter keypoint W H) ∧
    (limbIter keypoint W H i =
        some (DrawCmd.line (static_cast_int (vecAt keypoint ((a - 1) * 3)))
          (static_cast_int (vecAt keypoint ((a - 1) * 3 + 1)))
          (static_cast_int (vecAt keypoint ((b - 1) * 3)))
          (static_cast_int (vecAt keypoint ((b - 1) * 3 + 1)))
          (colorAt limbColorPalette i)) ↔
      (1 / 2 ≤ vecAt keypoint ((a - 1) * 3 + 2) ∧ 1 / 2 ≤ vecAt keypoint ((b - 1) * 3 + 2)) ∧
      (¬ W ∣ static_cast_int (vecAt keypoint ((a - 1) * 3)) ∧
        ¬ H ∣ static_cast_int (vecAt keypoint ((a - 1) * 3 + 1)) ∧
        ¬ W ∣ static_cast_int (vecAt keypoint ((b - 1) * 3)) ∧
        ¬ H ∣ static_cast_int (vecAt keypoint ((b - 1) * 3 + 1))) ∧
      (0 ≤ static_cast_int (vecAt keypoint ((a - 1) * 3)) ∧
        0 ≤ static_cast_int (vecAt keypoint ((a - 1) * 3 + 1)) ∧
        0 ≤ static_cast_int (vecAt keypoint ((b - 1) * 3)) ∧
        0 ≤ static_cast_int (vecAt keypoint ((b - 1) * 3 + 1)))) ∧
    (limbIter keypoint W H i = none ↔
      (vecAt keypoint ((a - 1) * 3 + 2) < 1 / 2 ∨ vecAt keypoint ((b - 1) * 3 + 2) < 1 / 2) ∨
      (W ∣ static_cast_int (vecAt keypoint ((a - 1) * 3)) ∨
        H ∣ static_cast_int (vecAt keypoint ((a - 1) * 3 + 1)) ∨
        W ∣ static_cast_int (vecAt keypoint ((b - 1) * 3)) ∨
        H ∣ static_cast_int (vecAt keypoint ((b - 1) * 3 + 1))) ∨
      (static_cast_int (vecAt keypoint ((a - 1) * 3)) < 0 ∨
        static_cast_int (vecAt keypoint ((a - 1) * 3 + 1)) < 0 ∨
        static_cast_int (vecAt keypoint ((b - 1) * 3)) < 0 ∨
        static_cast_int (vecAt keypoint ((b - 1) * 3 + 1)) < 0)) := by
  have hget : skeleton.getD i [] = [a, b] := by
    rw [List.getD_eq_getElem?_getD, hsk]
    rfl
  have ha : ([a, b] : List Int).getD 0 0 = a := rfl
  have hb : ([a, b] : List Int).getD 1 0 = b := rfl
  refine ⟨limbPass_eq keypoint W H, ?_, ?_⟩
  · simp only [limbIter, hget, ha, hb, ← Int.dvd_iff_tmod_eq_zero]
    split_ifs with h1 h2
    · simp only [false_iff, reduceCtorEq]
      rintro ⟨⟨c1, c2⟩, -, -⟩
      rcases h1 with h1 | h1
      · exact absurd h1 (not_lt.mpr c1)
      · exact absurd h1 (not_lt.mpr c2)
    · simp only [false_iff, reduceCtorEq]
      rintro ⟨-, ⟨d1, d2, d3, d4⟩, n1, n2, n3, n4⟩
      rcases h2 with h | h | h | h | h | h | h | h
      · exact d1 h
      · exact d2 h
      · exact absurd h (not_lt.mpr n1)
      · exact absurd h (not_lt.mpr n2)
      · exact d3 h
      · exact d4 h
      · exact absurd h (not_lt.mpr n3)
      · exact absurd h (not_lt.mpr n4)
    · simp only [true_iff]
      push_neg at h1 h2
      obtain ⟨c1, c2⟩ := h1
      obtain ⟨d1, d2, n1, n2, d3, d4, n3, n4⟩ := h2
      exact ⟨⟨c1, c2⟩, ⟨d1, d2, d3, d4⟩, n1, n2, n3, n4⟩
  · simp only [limbIter, hget, ha, hb, ← Int.dvd_iff_tmod_eq_zero]
    split_ifs with h1 h2
    · simp only [true_iff]
      exact Or.inl h1
    · simp only [true_iff]
      rcases h2 with h | h | h | h | h | h | h | h
      · exact Or.inr (Or.inl (Or.inl h))
      · exact Or.inr (Or.inl (Or.inr (Or.inl h)))
      · exact Or.inr (Or.inr (Or.inl h))
      · exact Or.inr (Or.inr (Or.inr (Or.inl h)))
      · exact Or.inr (Or.inl (Or.inr (Or.inr (Or.inl h))))
      · exact Or.inr (Or.inl (Or.inr (Or.inr (Or.inr h))))
      · exact Or.inr (Or.inr (Or.inr (Or.inr (Or.inl h))))
      · exact Or.inr (Or.inr (Or.inr (Or.inr (Or.inr h))))
    · simp only [false_iff, reduceCtorEq]
      push_neg at h1 h2
      obtain ⟨c1, c2⟩ := h1
      obtain ⟨d1, d2, n1, n2, d3, d4, n3, n4⟩ := h2
      rintro (h | h | h)
      · rcases h with h | h
        · exact absurd h (not_lt.mpr c1)
        · exact absurd h (not_lt.mpr c2)
      · rcases h with h | h | h | h
        · exact d1 h
        · exact d2 h
        · exact d3 h
        · exact d4 h
      · rcases h with h | h | h | h
        · exact absurd h (not_lt.mpr n1)
        · exact absurd h (not_lt.mpr n2)
        · exact absurd h (not_lt.mpr n3)
        · exact absurd h (not_lt.mpr n4)

/-! ## The preprocessor -/

/-- A loop over `0 .. n-1` establishes `P n` from `P 0` when each iteration `k` takes `P k`
to `P (k + 1)`. -/
theorem foldl_range_invariant {σ : Type} (P : Nat → σ → Prop) (f : σ → Nat → σ) (n : Nat)
    (s0 : σ) (h0 : P 0 s0) (hstep : ∀ k s, k < n → P k s → P (k + 1) (f s k)) :
    P n ((List.range n).foldl f s0) := by
  induction n with
  | zero => simpa using h0
  | succ n ih =>
    rw [List.range_succ, List.foldl_append]
    simp only [List.foldl_cons, List.foldl_nil]
    exact hstep n _ (Nat.lt_succ_self n)
      (ih (fun k s hk hP => hstep k s (Nat.lt_succ_of_lt hk) hP))

theorem flatIndex_lt {C H W c h w : Nat} (hc : c < C) (hh : h < H) (hw : w < W) :
    c * W * H + h * W + w < C * H * W := by
  have h1 : h * W + w < H * W := by
    calc h * W + w < h * W + W := by omega
      _ = (h + 1) * W := by ring
      _ ≤ H * W := Nat.mul_le_mul_right W hh
  calc c * W * H + h * W + w < c * W * H + H * W := by omega
    _ = (c + 1) * (H * W) := by ring
    _ ≤ C * (H * W) := Nat.mul_le_mul_right (H * W) hc
    _ = C * H * W := by ring

theorem flatIndex_decompose {H W c h w : Nat} (hh : h < H) (hw : w < W) :
    (c * W * H + h * W + w) % W = w ∧ (c * W * H + h * W + w) / W % H = h ∧
      (c * W * H + h * W + w) / W / H = c := by
  have hW : 0 < W := by omega
  have hH : 0 < H := by omega
  have e1 : c * W * H + h * W + w = w + W * (h + H * c) := by ring
  have e2 : (c * W * H + h * W + w) / W = h + H * c := by
    rw [e1, Nat.add_mul_div_left _ _ hW, Nat.div_eq_of_lt hw, Nat.zero_add]
  refine ⟨?_, ?_, ?_⟩
  · rw [e1, Nat.add_mul_mod_self_left, Nat.mod_eq_of_lt hw]
  · rw [e2, Nat.add_mul_mod_self_left, Nat.mod_eq_of_lt hh]
  · rw [e2, Nat.add_mul_div_left _ _ hH, Nat.div_eq_of_lt hh, Nat.zero_add]

/-- The state of the repack loop after exactly the flat positions `0 .. m-1` have been
written, each with the pixel value that belongs there. -/
theorem repackWrite_invariant (C H W : Nat) (blob_image : Image) (c h w : Nat) (hc : c < C)
    (hh : h < H) (hw : w < W) (st : Filled)
    (hinv : st.written = List.range (c * W * H + h * W + w) ∧ st.data.length = C * H * W ∧
      ∀ k, k < c * W * H + h * W + w →
        st.data[k]? = some (blob_image.px (k / W % H) (k % W) (k / W / H))) :
    (repackWrite W H blob_image c h st w).written = List.range (c * W * H + h * W + w + 1) ∧
    (repackWrite W H blob_image c h st w).data.length = C * H * W ∧
      ∀ k, k < c * W * H + h * W + w + 1 →
        (repackWrite W H blob_image c h st w).data[k]? =
          some (blob_image.px (k / W % H) (k % W) (k / W / H)) := by
  obtain ⟨hwr, hlen, hval⟩ := hinv
  have hlt := flatIndex_lt hc hh hw
  obtain ⟨d1, d2, d3⟩ := flatIndex_decompose (c := c) hh hw
  refine ⟨?_, ?_, ?_⟩
  · simp only [repackWrite, hwr, List.range_succ]
  · simp only [repackWrite, List.length_set, hlen]
  · intro k hk
    simp only [repackWrite]
    rcases Nat.lt_succ_iff_lt_or_eq.mp hk with hlt2 | heq
    · rw [List.getElem?_set_ne (by omega)]
      exact hval k hlt2
    · rw [heq, List.getElem?_set_self (by rw [hlen]; exact hlt), d1, d2, d3]

theorem repackLoop_invariant (C H W : Nat) (blob_image : Image) (data : List ℚ)
    (hlen : data.length = C * H * W) :
    (repackLoop C H W blob_image data).written = List.range (C * W * H) ∧
    (repackLoop C H W blob_image data).data.length = C * H * W ∧
      ∀ k, k < C * W * H →
        (repackLoop C H W blob_image data).data[k]? =
          some (blob_image.px (k / W % H) (k % W) (k / W / H)) := by
  unfold repackLoop
  refine foldl_range_invariant
    (fun n (st : Filled) => st.written = List.range (n * W * H) ∧ st.data.length = C * H * W ∧
      ∀ k, k < n * W * H → st.data[k]? = some (blob_image.px (k / W % H) (k % W) (k / W / H)))
    _ C _ ?_ ?_
  · refine ⟨by simp, hlen, ?_⟩
    intro k hk
    simp at hk
  · intro c st hc hst
    have hmid := foldl_range_invariant
      (fun n (st : Filled) => st.written = List.range (c * W * H + n * W) ∧ st.data.length = C * H * W ∧
        ∀ k, k < c * W * H + n * W →
          st.data[k]? = some (blob_image.px (k / W % H) (k % W) (k / W / H)))
      (fun st h => (List.range W).foldl (repackWrite W H blob_image c h) st) H st
      (by simpa using hst) ?_
    · have e : (c + 1) * W * H = c * W * H + H * W := by ring
      rw [e]
      exact hmid
    · intro h st2 hh hst2
      have hin := foldl_range_invariant
        (fun n (st : Filled) => st.written = List.range (c * W * H + h * W + n) ∧
          st.data.length = C * H * W ∧
          ∀ k, k < c * W * H + h * W + n →
            st.data[k]? = some (blob_image.px (k / W % H) (k % W) (k / W / H)))
        (repackWrite W H blob_image c h) W st2 (by simpa using hst2)
        (fun w st3 hw hst3 => repackWrite_invariant C H W blob_image c h w hc hh hw st3 hst3)
      have e : c * W * H + (h + 1) * W = c * W * H + h * W + W := by ring
      rw [e]
      exact hin

theorem fill_tensor_data_image_returns (warpAffine : Image → ℚ → Nat → Nat → Image)
    (input_tensor : Tensor) (input_image : Image) :
    fill_tensor_data_image warpAffine input_tensor input_image =
      Except.ok
        ({ shape := input_tensor.shape
           data := (repackLoop (input_tensor.shape.getD 1 0) (input_tensor.shape.getD 2 0)
              (input_tensor.shape.getD 3 0)
              (letterboxImage warpAffine
                (letterboxScale (input_tensor.shape.getD 2 0) (input_tensor.shape.getD 3 0)
                  input_image)
                (input_tensor.shape.getD 3 0) (input_tensor.shape.getD 2 0) input_image)
              input_tensor.data).data },
          1 / letterboxScale (input_tensor.shape.getD 2 0) (input_tensor.shape.getD 3 0)
            input_image) := rfl

theorem flatIndex_surjective {C H W k : Nat} (hk : k < C * H * W) :
    k / W / H < C ∧ k / W % H < H ∧ k % W < W ∧
      (k / W / H) * W * H + (k / W % H) * W + k % W = k := by
  have hW : 0 < W := by
    rcases Nat.eq_zero_or_pos W with h | h
    · subst h; simp at hk
    · exact h
  have hH : 0 < H := by
    rcases Nat.eq_zero_or_pos H with h | h
    · subst h; simp at hk
    · exact h
  refine ⟨?_, Nat.mod_lt _ hH, Nat.mod_lt _ hW, ?_⟩
  · rw [Nat.div_div_eq_div_mul]
    apply Nat.div_lt_of_lt_mul
    calc k < C * H * W := hk
      _ = W * H * C := by ring
  · have h1 := Nat.div_add_mod k W
    have h2 := Nat.div_add_mod (k / W) H
    calc (k / W / H) * W * H + (k / W % H) * W + k % W
        = W * (H * (k / W / H) + k / W % H) + k % W := by ring
      _ = k := by rw [h2, h1]

/-- Claim C8: for a tensor of shape (1, C, H, W) the repack loop writes pixel (h, w) channel c
to flat position c*W*H + h*W + w; the positions written are exactly 0 .. C*H*W-1, each once,
and the position map is a bijection from the index triples onto that range. -/
theorem repackLoop_chw_layout (C H W : Nat) (blob_image : Image) (data : List ℚ)
    (hlen : data.length = C * H * W) :
    (repackLoop C H W blob_image data).written = List.range (C * H * W) ∧
    (∀ k, k < C * H * W → (repackLoop C H W blob_image data).written.count k = 1) ∧
    (∀ k, k ∈ (repackLoop C H W blob_image data).written → k < C * H * W) ∧
    (repackLoop C H W blob_image data).data.length = C * H * W ∧
    (∀ c h w, c < C → h < H → w < W →
      c * W * H + h * W + w < C * H * W ∧
      (repackLoop C H W blob_image data).data[c * W * H + h * W + w]? =
        some (blob_image.px h w c)) ∧
    (∀ c h w c2 h2 w2, c < C → h < H → w < W → c2 < C → h2 < H → w2 < W →
      c * W * H + h * W + w = c2 * W * H + h2 * W + w2 → c = c2 ∧ h = h2 ∧ w = w2) ∧
    (∀ k, k < C * H * W →
      ∃ c h w, c < C ∧ h < H ∧ w < W ∧ c * W * H + h * W + w = k) ∧
    (∀ (warpAffine : Image → ℚ → Nat → Nat → Image) (input_image : Image),
      ∃ r, fill_tensor_data_image warpAffine ⟨[1, C, H, W], data⟩ input_image =
        Except.ok (⟨[1, C, H, W], (repackLoop C H W
          (letterboxImage warpAffine (letterboxScale H W input_image) W H input_image)
          data).data⟩, r)) := by
  obtain ⟨hwr, hl, hval⟩ := repackLoop_invariant C H W blob_image data hlen
  have e : C * W * H = C * H * W := by ring
  rw [e] at hwr hval
  refine ⟨hwr, ?_, ?_, hl, ?_, ?_, ?_, ?_⟩
  · intro k hk
    rw [hwr]
    exact List.count_eq_one_of_mem (List.nodup_range _) (List.mem_range.mpr hk)
  · intro k hk
    rw [hwr] at hk
    exact List.mem_range.mp hk
  · intro c h w hc hh hw
    have hlt := flatIndex_lt hc hh hw
    obtain ⟨d1, d2, d3⟩ := flatIndex_decompose (c := c) hh hw
    refine ⟨hlt, ?_⟩
    rw [hval _ hlt, d1, d2, d3]
  · intro c h w c2 h2 w2 _ hh hw _ hh2 hw2 heq
    obtain ⟨d1, d2, d3⟩ := flatIndex_decompose (c := c) hh hw
    obtain ⟨f1, f2, f3⟩ := flatIndex_decompose (c := c2) hh2 hw2
    rw [heq] at d1 d2 d3
    exact ⟨d3.symm.trans f3, d2.symm.trans f2, d1.symm.trans f1⟩
  · intro k hk
    obtain ⟨g1, g2, g3, g4⟩ := flatIndex_surjective hk
    exact ⟨_, _, _, g1, g2, g3, g4⟩
  · intro warpAffine input_image
    exact ⟨_, fill_tensor_data_image_returns warpAffine ⟨[1, C, H, W], data⟩ input_image⟩

theorem letterboxScale_bounds (H W : Nat) (input_image : Image) :
    letterboxScale H W input_image ≤ (H : ℚ) / (input_image.rows : ℚ) ∧
    letterboxScale H W input_image ≤ (W : ℚ) / (input_image.cols : ℚ) ∧
    (letterboxScale H W input_image = (H : ℚ) / (input_image.rows : ℚ) ∨
      letterboxScale H W input_image = (W : ℚ) / (input_image.cols : ℚ)) := by
  unfold letterboxScale
  refine ⟨min_le_left _ _, min_le_right _ _, ?_⟩
  rcases min_choice ((H : ℚ) / (input_image.rows : ℚ)) ((W : ℚ) / (input_image.cols : ℚ))
    with h | h
  · exact Or.inl h
  · exact Or.inr h

theorem letterboxScale_pos (H W : Nat) (input_image : Image) (hH : 0 < H) (hW : 0 < W)
    (hr : 0 < input_image.rows) (hc : 0 < input_image.cols) :
    0 < letterboxScale H W input_image := by
  unfold letterboxScale
  have h1 : (0 : ℚ) < (H : ℚ) / (input_image.rows : ℚ) :=
    div_pos (by exact_mod_cast hH) (by exact_mod_cast hr)
  have h2 : (0 : ℚ) < (W : ℚ) / (input_image.cols : ℚ) :=
    div_pos (by exact_mod_cast hW) (by exact_mod_cast hc)
  exact lt_min h1 h2

/-- Claim C9: for an image with rows > 0 and cols > 0 and tensor height H > 0 and width
W > 0, the scale equals min(H/rows, W/cols), is at most H/rows and at most W/cols with
equality on one of them, and the function returns exactly 1/scale. -/
theorem fill_tensor_data_image_inverse_scale (warpAffine : Image → ℚ → Nat → Nat → Image)
    (input_tensor : Tensor) (input_image : Image)
    (hr : 0 < input_image.rows) (hc : 0 < input_image.cols)
    (hH : 0 < input_tensor.shape.getD 2 0) (hW : 0 < input_tensor.shape.getD 3 0) :
    letterboxScale (input_tensor.shape.getD 2 0) (input_tensor.shape.getD 3 0) input_image =
      min (((input_tensor.shape.getD 2 0 : Nat) : ℚ) / (input_image.rows : ℚ))
        (((input_tensor.shape.getD 3 0 : Nat) : ℚ) / (input_image.cols : ℚ)) ∧
    letterboxScale (input_tensor.shape.getD 2 0) (input_tensor.shape.getD 3 0) input_image ≤
      ((input_tensor.shape.getD 2 0 : Nat) : ℚ) / (input_image.rows : ℚ) ∧
    letterboxScale (input_tensor.shape.getD 2 0) (input_tensor.shape.getD 3 0) input_image ≤
      ((input_tensor.shape.getD 3 0 : Nat) : ℚ) / (input_image.cols : ℚ) ∧
    (letterboxScale (input_tensor.shape.getD 2 0) (input_tensor.shape.getD 3 0) input_image =
        ((input_tensor.shape.getD 2 0 : Nat) : ℚ) / (input_image.rows : ℚ) ∨
      letterboxScale (input_tensor.shape.getD 2 0) (input_tensor.shape.getD 3 0) input_image =
        ((input_tensor.shape.getD 3 0 : Nat) : ℚ) / (input_image.cols : ℚ)) ∧
    0 < letterboxScale (input_tensor.shape.getD 2 0) (input_tensor.shape.getD 3 0)
      input_image ∧
    ∃ t r, fill_tensor_data_image warpAffine input_tensor input_image = Except.ok (t, r) ∧
      r = 1 / letterboxScale (input_tensor.shape.getD 2 0) (input_tensor.shape.getD 3 0)
        input_image ∧
      r * letterboxScale (input_tensor.shape.getD 2 0) (input_tensor.shape.getD 3 0)
        input_image = 1 := by
  obtain ⟨b1, b2, b3⟩ :=
    letterboxScale_bounds (input_tensor.shape.getD 2 0) (input_tensor.shape.getD 3 0)
      input_image
  have hpos := letterboxScale_pos _ _ input_image hH hW hr hc
  refine ⟨rfl, b1, b2, b3, hpos, _, _,
    fill_tensor_data_image_returns warpAffine input_tensor input_image, rfl, ?_⟩
  exact one_div_mul_cancel (ne_of_gt hpos)

/-- Claim C4, counterexample: with a tensor of shape (1, 1, 4, 4), whose channel count is not
3, and a 2 by 2 image the function returns the inverse scale 1/2 and no error. -/
theorem fill_tensor_data_image_one_channel_returns :
    ([1, 1, 4, 4] : List Nat).getD 1 0 ≠ 3 ∧
    ∃ t, fill_tensor_data_image nearestWarp ⟨[1, 1, 4, 4], List.replicate 16 0⟩ greyImage =
      Except.ok (t, 1 / 2) := by
  refine ⟨by decide, ?_⟩
  rw [fill_tensor_data_image_returns]
  have hs : letterboxScale (([1, 1, 4, 4] : List Nat).getD 2 0)
      (([1, 1, 4, 4] : List Nat).getD 3 0) greyImage = 2 := by
    norm_num [letterboxScale, greyImage]
  simp only [hs]
  exact ⟨_, rfl⟩

/-- Claim C4, amended: the function has no shape check of its own; for every channel count,
three or not, and every image with rows > 0 and cols > 0 it returns the inverse scale
1 / min(H/rows, W/cols) and never a shape error. -/
theorem fill_tensor_data_image_no_shape_check (warpAffine : Image → ℚ → Nat → Nat → Image)
    (input_tensor : Tensor) (input_image : Image)
    (_hr : 0 < input_image.rows) (_hc : 0 < input_image.cols) :
    (∃ t, fill_tensor_data_image warpAffine input_tensor input_image =
      Except.ok (t, 1 / min (((input_tensor.shape.getD 2 0 : Nat) : ℚ) / (input_image.rows : ℚ))
        (((input_tensor.shape.getD 3 0 : Nat) : ℚ) / (input_image.cols : ℚ)))) ∧
    ∀ e, fill_tensor_data_image warpAffine input_tensor input_image ≠ Except.error e := by
  refine ⟨⟨_, fill_tensor_data_image_returns warpAffine input_tensor input_image⟩, ?_⟩
  intro e h
  rw [fill_tensor_data_image_returns] at h
  cases h

/-! ## The suppression step -/

theorem insertByConfidence_perm (confidences : List ℚ) (i : Nat) (l : List Nat) :
    (insertByConfidence confidences i l).Perm (i :: l) := by
  induction l with
  | nil => exact List.Perm.refl _
  | cons j rest ih =>
    unfold insertByConfidence
    split
    · exact List.Perm.refl _
    · exact (List.Perm.cons j ih).trans (List.Perm.swap i j rest)

theorem sortByConfidence_perm (confidences : List ℚ) (l : List Nat) :
    (sortByConfidence confidences l).Perm l := by
  induction l with
  | nil => exact List.Perm.refl _
  | cons i rest ih =>
    unfold sortByConfidence
    exact (insertByConfidence_perm confidences i _).trans (List.Perm.cons i ih)

theorem insertByConfidence_sorted (confidences : List ℚ) (i : Nat) (l : List Nat)
    (hl : l.Pairwise (fun a b => confAt confidences a ≥ confAt confidences b)) :
    (insertByConfidence confidences i l).Pairwise
      (fun a b => confAt confidences a ≥ confAt confidences b) := by
  induction l with
  | nil => simp [insertByConfidence]
  | cons j rest ih =>
    unfold insertByConfidence
    obtain ⟨hj, hrest⟩ := List.pairwise_cons.mp hl
    split
    · next hge =>
      refine List.pairwise_cons.mpr ⟨?_, hl⟩
      intro k hk
      rcases List.mem_cons.mp hk with rfl | hk
      · exact hge
      · exact le_trans (hj k hk) hge
    · next hlt =>
      refine List.pairwise_cons.mpr ⟨?_, ih hrest⟩
      intro k hk
      have hk2 := (insertByConfidence_perm confidences i rest).subset hk
      rcases List.mem_cons.mp hk2 with rfl | hk2
      · exact le_of_lt (not_le.mp hlt)
      · exact hj k hk2

theorem sortByConfidence_sorted (confidences : List ℚ) (l : List Nat) :
    (sortByConfidence confidences l).Pairwise
      (fun a b => confAt confidences a ≥ confAt confidences b) := by
  induction l with
  | nil => simp [sortByConfidence]
  | cons i rest ih =>
    unfold sortByConfidence
    exact insertByConfidence_sorted confidences i _ ih

theorem greedySuppress_cons (boxes : List Rect) (thr : ℚ) (i : Nat) (rest : List Nat) :
    greedySuppress boxes thr (i :: rest) =
      i :: greedySuppress boxes thr
        (rest.filter (fun j => decide (¬ iou (boxAt boxes i) (boxAt boxes j) > thr))) := by
  rw [greedySuppress]

theorem greedySuppress_sublist (boxes : List Rect) (thr : ℚ) (n : Nat) :
    ∀ l : List Nat, l.length ≤ n → (greedySuppress boxes thr l).Sublist l := by
  induction n with
  | zero =>
    intro l hl
    have : l = [] := List.length_eq_zero.mp (Nat.le_zero.mp hl)
    subst this
    rw [greedySuppress]
  | succ n ih =>
    intro l hl
    cases l with
    | nil => rw [greedySuppress]
    | cons i rest =>
      rw [greedySuppress_cons]
      apply List.cons_sublist_cons.mpr
      have hlen : (rest.filter
          (fun j => decide (¬ iou (boxAt boxes i) (boxAt boxes j) > thr))).length ≤ n :=
        le_trans (List.length_filter_le _ _) (Nat.le_of_succ_le_succ hl)
      exact (ih _ hlen).trans (List.filter_sublist _)

theorem greedySuppress_mem_iff (boxes : List Rect) (thr : ℚ) (n : Nat) :
    ∀ (l pre post : List Nat) (i : Nat), l.length ≤ n → l = pre ++ i :: post → l.Nodup →
      (i ∈ greedySuppress boxes thr l ↔
        ∀ k, k ∈ pre → k ∈ greedySuppress boxes thr l →
          ¬ iou (boxAt boxes k) (boxAt boxes i) > thr) := by
  induction n with
  | zero =>
    intro l pre post i hl heq _
    have : l = [] := List.length_eq_zero.mp (Nat.le_zero.mp hl)
    subst this
    simp at heq
  | succ n ih =>
    intro l pre post i hl heq hnd
    cases pre with
    | nil =>
      subst heq
      rw [List.nil_append, greedySuppress_cons]
      simp
    | cons h pre2 =>
      subst heq
      rw [List.cons_append] at hl hnd ⊢
      rw [greedySuppress_cons]
      obtain ⟨hnotin, hnd2⟩ := List.nodup_cons.mp hnd
      have hih : i ≠ h := by
        rintro rfl
        exact hnotin (by simp)
      have hsub := greedySuppress_sublist boxes thr n
        ((pre2 ++ i :: post).filter
          (fun j => decide (¬ iou (boxAt boxes h) (boxAt boxes j) > thr)))
        (le_trans (List.length_filter_le _ _) (Nat.le_of_succ_le_succ hl))
      by_cases hok : ¬ iou (boxAt boxes h) (boxAt boxes i) > thr
      · have hfil : (pre2 ++ i :: post).filter
            (fun j => decide (¬ iou (boxAt boxes h) (boxAt boxes j) > thr)) =
            pre2.filter (fun j => decide (¬ iou (boxAt boxes h) (boxAt boxes j) > thr)) ++
              i :: post.filter
                (fun j => decide (¬ iou (boxAt boxes h) (boxAt boxes j) > thr)) := by
          rw [List.filter_append, List.filter_cons, if_pos (by simpa using hok)]
        have hIH := ih _ _ _ i
          (le_trans (List.length_filter_le _ _) (Nat.le_of_succ_le_succ hl)) hfil
          (List.Nodup.sublist (List.filter_sublist _) hnd2)
        constructor
        · intro hmem k hk hkk
          have hmem2 : i ∈ greedySuppress boxes thr ((pre2 ++ i :: post).filter
              (fun j => decide (¬ iou (boxAt boxes h) (boxAt boxes j) > thr))) := by
            rcases List.mem_cons.mp hmem with heq | hm
            · exact absurd heq hih
            · exact hm
          rcases List.mem_cons.mp hk with rfl | hkpre
          · exact hok
          · have hkh : k ≠ h := by
              rintro rfl
              exact hnotin (List.mem_append_left _ hkpre)
            have hkg : k ∈ greedySuppress boxes thr ((pre2 ++ i :: post).filter
                (fun j => decide (¬ iou (boxAt boxes h) (boxAt boxes j) > thr))) := by
              rcases List.mem_cons.mp hkk with heq | hm
              · exact absurd heq hkh
              · exact hm
            have hkf := (List.mem_filter.mp (hsub.subset hkg)).2
            exact hIH.mp hmem2 k (List.mem_filter.mpr ⟨hkpre, hkf⟩) hkg
        · intro hall
          apply List.mem_cons_of_mem
          apply hIH.mpr
          intro k hk hkg
          exact hall k (List.mem_cons_of_mem _ (List.mem_filter.mp hk).1)
            (List.mem_cons_of_mem _ hkg)
      · constructor
        · intro hmem
          exfalso
          rcases List.mem_cons.mp hmem with heq | hm
          · exact hih heq
          · have := (List.mem_filter.mp (hsub.subset hm)).2
            exact hok (by simpa using this)
        · intro hall
          exact absurd (hall h (List.mem_cons_self _ _) (List.mem_cons_self _ _)) hok

theorem overlapArea_comm (a b : Rect) : overlapArea a b = overlapArea b a := by
  unfold overlapArea
  simp only [min_comm (a.x + a.width), max_comm a.x, min_comm (a.y + a.height), max_comm a.y]

theorem iou_comm (a b : Rect) : iou a b = iou b a := by
  unfold iou
  rw [overlapArea_comm a b, add_comm (a.width * a.height)]

theorem decodeLoop_lengths (det_output : Mat) (factor : ℚ) :
    (decodeLoop det_output factor).confidences.length =
      (decodeLoop det_output factor).boxes.length := by
  rw [decodeLoop_eq]
  simp

theorem decodeLoop_confidence_gt (det_output : Mat) (factor : ℚ) (i : Nat)
    (hi : i < (decodeLoop det_output factor).confidences.length) :
    confAt (decodeLoop det_output factor).confidences i > 3 / 10 := by
  rw [decodeLoop_eq] at hi ⊢
  simp only [List.length_map] at hi
  simp only [confAt, List.getD_eq_getElem?_getD, List.getElem?_map,
    List.getElem?_eq_getElem hi, Option.map_some', Option.getD_some]
  exact ((mem_passingColumns det_output _).mp (List.getElem_mem hi)).2

theorem suppressionStep_eq (det_output : Mat) (factor : ℚ) :
    suppressionStep det_output factor =
      greedySuppress (decodeLoop det_output factor).boxes (9 / 20)
        (sortByConfidence (decodeLoop det_output factor).confidences
          (List.range (decodeLoop det_output factor).boxes.length)) := by
  unfold suppressionStep NMSBoxes
  congr 2
  apply List.filter_eq_self.mpr
  intro i hi
  have hi2 : i < (decodeLoop det_output factor).confidences.length := by
    rw [decodeLoop_lengths]
    exact List.mem_range.mp hi
  have := decodeLoop_confidence_gt det_output factor i hi2
  simp only [decide_eq_true_eq, not_lt]
  linarith

theorem NMSBoxes_pair (b0 b1 : Rect) (c0 c1 : ℚ) (h0 : 1 / 4 ≤ c0) (h1 : 1 / 4 ≤ c1) :
    NMSBoxes [b0, b1] [c0, c1] (1 / 4) (9 / 20) =
      if c0 ≥ c1 then
        (if iou b0 b1 > 9 / 20 then [0] else [0, 1])
      else
        (if iou b1 b0 > 9 / 20 then [1] else [1, 0]) := by
  have hr : List.range ([b0, b1] : List Rect).length = [0, 1] := rfl
  have e0 : confAt [c0, c1] 0 = c0 := rfl
  have e1 : confAt [c0, c1] 1 = c1 := rfl
  have x0 : boxAt [b0, b1] 0 = b0 := rfl
  have x1 : boxAt [b0, b1] 1 = b1 := rfl
  unfold NMSBoxes
  rw [hr]
  simp only [List.filter_cons, List.filter_nil, e0, e1, not_lt.mpr h0, not_lt.mpr h1,
    not_false_eq_true, decide_True, if_true, sortByConfidence, insertByConfidence]
  by_cases hc : c0 ≥ c1
  · simp only [if_pos hc, greedySuppress_cons, x0, x1, List.filter_cons, List.filter_nil]
    by_cases hi : iou b0 b1 > 9 / 20
    · simp [hi, greedySuppress]
    · simp [hi, greedySuppress]
  · simp only [if_neg hc, greedySuppress_cons, x0, x1, List.filter_cons, List.filter_nil]
    by_cases hi : iou b1 b0 > 9 / 20
    · simp [hi, greedySuppress]
    · simp [hi, greedySuppress]

/-- Claim C7: the suppression step on the decoded boxes and confidences returns valid
indices, without repetition, in descending order of confidence; every decoded detection is a
candidate, and a candidate is kept if and only if its IoU with every kept candidate before it
in the confidence order is at most 0.45. Two boxes with IoU 0.9 and confidences 0.9 and 0.8
leave only the 0.9 box, in either input order; two boxes with IoU 0 both survive. -/
theorem suppressionStep_greedy (det_output : Mat) (factor : ℚ) :
    (∀ i, i ∈ suppressionStep det_output factor →
      i < (decodeLoop det_output factor).boxes.length ∧
      i < (decodeLoop det_output factor).confidences.length) ∧
    (suppressionStep det_output factor).Nodup ∧
    (suppressionStep det_output factor).Pairwise
      (fun a b => confAt (decodeLoop det_output factor).confidences a ≥
        confAt (decodeLoop det_output factor).confidences b) ∧
    (sortByConfidence (decodeLoop det_output factor).confidences
        (List.range (decodeLoop det_output factor).boxes.length)).Perm
      (List.range (decodeLoop det_output factor).boxes.length) ∧
    (∀ pre i post,
      sortByConfidence (decodeLoop det_output factor).confidences
        (List.range (decodeLoop det_output factor).boxes.length) = pre ++ i :: post →
      (∀ k, k ∈ pre → confAt (decodeLoop det_output factor).confidences k ≥
        confAt (decodeLoop det_output factor).confidences i) ∧
      (i ∈ suppressionStep det_output factor ↔
        ∀ k, k ∈ pre → k ∈ suppressionStep det_output factor →
          iou (boxAt (decodeLoop det_output factor).boxes k)
            (boxAt (decodeLoop det_output factor).boxes i) ≤ 9 / 20)) ∧
    (∀ b0 b1, iou b0 b1 = 9 / 10 →
      NMSBoxes [b0, b1] [9 / 10, 8 / 10] (1 / 4) (9 / 20) = [0] ∧
      NMSBoxes [b1, b0] [8 / 10, 9 / 10] (1 / 4) (9 / 20) = [1]) ∧
    (∀ b0 b1 c0 c1, iou b0 b1 = 0 → 1 / 4 ≤ c0 → 1 / 4 ≤ c1 →
      NMSBoxes [b0, b1] [c0, c1] (1 / 4) (9 / 20) = if c0 ≥ c1 then [0, 1] else [1, 0]) := by
  have hperm := sortByConfidence_perm (decodeLoop det_output factor).confidences
    (List.range (decodeLoop det_output factor).boxes.length)
  have hsorted := sortByConfidence_sorted (decodeLoop det_output factor).confidences
    (List.range (decodeLoop det_output factor).boxes.length)
  have hnd : (sortByConfidence (decodeLoop det_output factor).confidences
      (List.range (decodeLoop det_output factor).boxes.length)).Nodup :=
    hperm.nodup_iff.mpr (List.nodup_range _)
  have hsub := greedySuppress_sublist (decodeLoop det_output factor).boxes (9 / 20) _
    (sortByConfidence (decodeLoop det_output factor).confidences
      (List.range (decodeLoop det_output factor).boxes.length)) (le_refl _)
  rw [← suppressionStep_eq] at hsub
  refine ⟨?_, List.Nodup.sublist hsub hnd, List.Pairwise.sublist hsub hsorted, hperm, ?_, ?_, ?_⟩
  · intro i hi
    have h1 : i < (decodeLoop det_output factor).boxes.length :=
      List.mem_range.mp (hperm.subset (hsub.subset hi))
    exact ⟨h1, by rw [decodeLoop_lengths]; exact h1⟩
  · intro pre i post heq
    refine ⟨?_, ?_⟩
    · intro k hk
      rw [heq] at hsorted
      exact (List.pairwise_append.mp hsorted).2.2 k hk i (List.mem_cons_self _ _)
    · have hG := greedySuppress_mem_iff (decodeLoop det_output factor).boxes (9 / 20) _
        _ pre post i (le_refl _) heq hnd
      rw [← suppressionStep_eq] at hG
      simp only [gt_iff_lt, not_lt] at hG
      exact hG
  · intro b0 b1 hiou
    constructor
    · rw [NMSBoxes_pair b0 b1 _ _ (by norm_num) (by norm_num), if_pos (by norm_num),
        if_pos (by rw [hiou]; norm_num)]
    · rw [NMSBoxes_pair b1 b0 _ _ (by norm_num) (by norm_num), if_neg (by norm_num),
        if_pos (by rw [hiou]; norm_num)]
  · intro b0 b1 c0 c1 hiou h0 h1
    have n0 : ¬ iou b0 b1 > 9 / 20 := by rw [hiou]; norm_num
    have n1 : ¬ iou b1 b0 > 9 / 20 := by rw [iou_comm, hiou]; norm_num
    rw [NMSBoxes_pair b0 b1 c0 c1 h0 h1, if_neg n0, if_neg n1]

/-! ## The theorems at sample inputs -/

/-- The entries of the sample matrix read by the examples. -/
theorem sampleDet_scores :
    sampleDet.get 0 0 = 100 ∧ sampleDet.get 1 0 = 80 ∧ sampleDet.get 2 0 = 50 ∧
      sampleDet.get 3 0 = 60 ∧ sampleDet.get 4 0 = 9 / 10 ∧ sampleDet.get 4 1 = 1 / 10 :=
  ⟨rfl, rfl, rfl, rfl, rfl, rfl⟩

/-- Claim C1 at the sample matrix: column 0 scores 0.9 and column 1 scores 0.1, and the decode
loop returns exactly the detection of column 0. -/
theorem decodeLoop_parallel_lists_witness :
    (∀ i, i < sampleDet.cols → sampleDet.get 4 i = if i = 0 then 9 / 10 else 1 / 10) ∧
    (decodeLoop sampleDet 2).boxes = [decodeBox sampleDet 2 0] ∧
    (decodeLoop sampleDet 2).confidences = [9 / 10] ∧
    (decodeLoop sampleDet 2).objects_keypoints = [decodeKeypoints sampleDet 2 0] := by
  have hs : ∀ i, i < sampleDet.cols → sampleDet.get 4 i = if i = 0 then 9 / 10 else 1 / 10 := by
    intro i hi
    have hi2 : i < 2 := hi
    interval_cases i
    · exact sampleDet_scores.2.2.2.2.1
    · exact sampleDet_scores.2.2.2.2.2
  exact ⟨hs, (decodeLoop_parallel_lists sampleDet 2).2.2.2.2.2.2.2.2.2 0 (by decide) hs⟩

/-- Claim C5 at the sample matrix with factor 2: the box of column 0 has x = 150 and width 100. -/
theorem decodeLoop_box_truncated_witness :
    (0 < sampleDet.cols ∧ sampleDet.get 4 0 > 3 / 10) ∧
    ∃ (k : Nat) (box : Rect), (passingColumns sampleDet)[k]? = some 0 ∧
      (decodeLoop sampleDet 2).boxes[k]? = some box ∧ box.x = 150 ∧ box.width = 100 := by
  obtain ⟨e0, _, e2, _, e4, _⟩ := sampleDet_scores
  have h1 : 0 < sampleDet.cols := by decide
  have h2 : sampleDet.get 4 0 > 3 / 10 := by rw [e4]; norm_num
  obtain ⟨k, box, hk, hb, hx, _, hw, _⟩ := decodeLoop_box_truncated sampleDet 2 0 h1 h2
  refine ⟨⟨h1, h2⟩, k, box, hk, hb, ?_, ?_⟩
  · rw [hx, ← static_cast_int_eq_trunc, e0, e2]
    exact static_cast_int_eq_of_nonneg (by norm_num) (by norm_num) (by norm_num)
  · rw [hw, ← static_cast_int_eq_trunc, e2]
    exact static_cast_int_eq_of_nonneg (by norm_num) (by norm_num) (by norm_num)

/-- Claim C6 at the sample matrix with factor 2: the keypoint vector of column 0 has 51 entries
and its last joint is laid out as stated. -/
theorem decodeLoop_keypoints_layout_witness :
    (0 < sampleDet.cols ∧ sampleDet.get 4 0 > 3 / 10) ∧
    ∃ (k : Nat) (keypoints : List ℚ), (passingColumns sampleDet)[k]? = some 0 ∧
      (decodeLoop sampleDet 2).objects_keypoints[k]? = some keypoints ∧
      keypoints.length = 51 ∧ keypoints[3 * 16]? = some (sampleDet.get (5 + 3 * 16) 0 * 2) ∧
      keypoints[3 * 16 + 2]? = some (sampleDet.get (7 + 3 * 16) 0) := by
  have h1 : 0 < sampleDet.cols := by decide
  have h2 : sampleDet.get 4 0 > 3 / 10 := by rw [sampleDet_scores.2.2.2.2.1]; norm_num
  obtain ⟨k, kp, hk, hb, hlen, hent⟩ := decodeLoop_keypoints_layout sampleDet 2 0 h1 h2
  exact ⟨⟨h1, h2⟩, k, kp, hk, hb, hlen, (hent 16 (by decide)).1, (hent 16 (by decide)).2.2⟩

/-- Claim C2 (amended) at a sample keypoint vector: joint 0, visible at 0.9 at (10, 10) in a 640
by 480 frame, gets a radius-5 circle. -/
theorem keypointIter_draws_witness :
    ((0 : Nat) < 17 ∧ (0 : Int) < 640 ∧ (0 : Int) < 480) ∧
    keypointIter keypointsLowSecondJoint 640 480 0 =
      some (DrawCmd.circle 10 10 5 ⟨0, 255, 0⟩) := by
  have h10 : static_cast_int 10 = 10 :=
    static_cast_int_eq_of_nonneg (by norm_num) (by norm_num) (by norm_num)
  have e0 : vecAt keypointsLowSecondJoint (((0 : Nat) : Int) * 3) = 10 := rfl
  have e1 : vecAt keypointsLowSecondJoint (((0 : Nat) : Int) * 3 + 1) = 10 := rfl
  have ev : visibilityOf keypointsLowSecondJoint 0 = 9 / 10 := rfl
  have hc : colorAt kptColorPalette ((0 : Nat) : Int) = ⟨0, 255, 0⟩ := by decide
  have h := (keypointIter_draws keypointsLowSecondJoint 640 480 0 (by decide) (by decide)
    (by decide)).2.2.2 (by rw [ev]; norm_num) (by rw [ev]; norm_num)
    (by rw [e0, h10]; decide) (by rw [e1, h10]; decide)
  rw [e0, e1, h10, hc] at h
  exact ⟨⟨by decide, by decide, by decide⟩, h⟩

/-- Claim C3 (amended) at a sample keypoint vector: skeleton entry 13 joins joints 1 and 2, both
visible and inside a 640 by 480 frame, and its line is drawn. -/
theorem limbIter_draws_iff_witness :
    ((0 : Int) < 640 ∧ (0 : Int) < 480 ∧ skeleton[13]? = some [1, 2]) ∧
    limbIter keypointsInFrame 640 480 13 = some (DrawCmd.line 10 10 30 40 ⟨0, 255, 0⟩) := by
  have h10 : static_cast_int 10 = 10 :=
    static_cast_int_eq_of_nonneg (by norm_num) (by norm_num) (by norm_num)
  have h105 : static_cast_int (21 / 2) = 10 :=
    static_cast_int_eq_of_nonneg (by norm_num) (by norm_num) (by norm_num)
  have h30 : static_cast_int 30 = 30 :=
    static_cast_int_eq_of_nonneg (by norm_num) (by norm_num) (by norm_num)
  have h40 : static_cast_int 40 = 40 :=
    static_cast_int_eq_of_nonneg (by norm_num) (by norm_num) (by norm_num)
  have a0 : vecAt keypointsInFrame (((1 : Int) - 1) * 3) = 21 / 2 := rfl
  have a1 : vecAt keypointsInFrame (((1 : Int) - 1) * 3 + 1) = 10 := rfl
  have a2 : vecAt keypointsInFrame (((1 : Int) - 1) * 3 + 2) = 9 / 10 := rfl
  have b0 : vecAt keypointsInFrame (((2 : Int) - 1) * 3) = 30 := rfl
  have b1 : vecAt keypointsInFrame (((2 : Int) - 1) * 3 + 1) = 40 := rfl
  have b2 : vecAt keypointsInFrame (((2 : Int) - 1) * 3 + 2) = 9 / 10 := rfl
  have hc : colorAt limbColorPalette ((13 : Nat) : Int) = ⟨0, 255, 0⟩ := by decide
  have h := (limbIter_draws_iff keypointsInFrame 640 480 13 1 2 (by decide) (by decide)
    (by decide)).2.1
  rw [a0, a1, a2, b0, b1, b2, h105, h10, h30, h40, hc] at h
  refine ⟨⟨by decide, by decide, by decide⟩, h.mpr ⟨⟨by norm_num, by norm_num⟩, ?_, ?_⟩⟩
  · decide
  · decide

/-- Claim C4 (amended) at a one-channel 4 by 4 tensor and a 2 by 2 image: no error is returned. -/
theorem fill_tensor_data_image_no_shape_check_witness :
    (0 < greyImage.rows ∧ 0 < greyImage.cols) ∧
    ∀ e, fill_tensor_data_image nearestWarp ⟨[1, 1, 4, 4], List.replicate 16 0⟩ greyImage ≠
      Except.error e :=
  ⟨⟨by decide, by decide⟩,
    (fill_tensor_data_image_no_shape_check nearestWarp ⟨[1, 1, 4, 4], List.replicate 16 0⟩
      greyImage (by decide) (by decide)).2⟩

/-- Claim C8 at a (1, 3, 2, 2) tensor: positions 0 .. 11 are written in order and position 11
holds channel 2 of pixel (1, 1). -/
theorem repackLoop_chw_layout_witness :
    (List.replicate 12 (0 : ℚ)).length = 3 * 2 * 2 ∧
    (repackLoop 3 2 2 greyImage (List.replicate 12 0)).written = List.range (3 * 2 * 2) ∧
    (repackLoop 3 2 2 greyImage (List.replicate 12 0)).data[2 * 2 * 2 + 1 * 2 + 1]? =
      some (greyImage.px 1 1 2) :=
  ⟨rfl, (repackLoop_chw_layout 3 2 2 greyImage (List.replicate 12 0) rfl).1,
    ((repackLoop_chw_layout 3 2 2 greyImage (List.replicate 12 0) rfl).2.2.2.2.1 2 1 1
      (by decide) (by decide) (by decide)).2⟩

/-- Claim C9 at a (1, 3, 4, 4) tensor and a 2 by 2 image: the scale is 2 and the value returned is
1/2. -/
theorem fill_tensor_data_image_inverse_scale_witness :
    (0 < greyImage.rows ∧ 0 < greyImage.cols ∧ 0 < ([1, 3, 4, 4] : List Nat).getD 2 0 ∧
      0 < ([1, 3, 4, 4] : List Nat).getD 3 0) ∧
    ∃ t, fill_tensor_data_image nearestWarp ⟨[1, 3, 4, 4], List.replicate 48 0⟩ greyImage =
      Except.ok (t, 1 / 2) := by
  obtain ⟨_, _, _, _, _, t, r, hret, hr, _⟩ :=
    fill_tensor_data_image_inverse_scale nearestWarp ⟨[1, 3, 4, 4], List.replicate 48 0⟩
      greyImage (by decide) (by decide) (by decide) (by decide)
  have hs : letterboxScale (([1, 3, 4, 4] : List Nat).getD 2 0)
      (([1, 3, 4, 4] : List Nat).getD 3 0) greyImage = 2 := by
    norm_num [letterboxScale, greyImage]
  refine ⟨⟨by decide, by decide, by decide, by decide⟩, t, ?_⟩
  rw [hret, hr]
  simp only [hs]

/-- Claim C7 at two boxes of IoU 0.9 with confidences 0.9 and 0.8: only the 0.9 box survives, in
either input order. -/
theorem suppressionStep_greedy_witness :
    iou ⟨0, 0, 10, 10⟩ ⟨0, 0, 9, 10⟩ = 9 / 10 ∧
    NMSBoxes [⟨0, 0, 10, 10⟩, ⟨0, 0, 9, 10⟩] [9 / 10, 8 / 10] (1 / 4) (9 / 20) = [0] ∧
    NMSBoxes [⟨0, 0, 9, 10⟩, ⟨0, 0, 10, 10⟩] [8 / 10, 9 / 10] (1 / 4) (9 / 20) = [1] := by
  have ho : overlapArea ⟨0, 0, 10, 10⟩ ⟨0, 0, 9, 10⟩ = 90 := by decide
  have hi : iou ⟨0, 0, 10, 10⟩ ⟨0, 0, 9, 10⟩ = 9 / 10 := by
    unfold iou
    rw [ho]
    norm_num
  exact ⟨hi, (suppressionStep_greedy sampleDet 2).2.2.2.2.2.1 _ _ hi⟩

end Yolov8Pose
